import Mathlib

/-!
Verification of the rlox lexical scanner (`src/scanner.rs`).

The scanner is shallowly embedded: the source text is a `List Char`
(Rust iterates `chars()`, i.e. Unicode scalar values), the mutable
`Scanner` struct becomes a record threaded through pure functions, and
each Rust `while`/`loop` becomes a fuel-indexed recursion returning
`none` when the fuel runs out.  Fuel at every call site is
`str_len source + 2`, which is proved sufficient, so `none` never
escapes (see the termination theorem).  Fallible methods return
`Option (Except Error _)`: the `Option` layer is the fuel artifact,
the `Except` layer is Rust's `Result`.
-/

namespace RLox

/-- `TokenType` from `scanner.rs`. -/
inductive TokenType where
  | LeftParen | RightParen | LeftBrace | RightBrace
  | Comma | Dot | Minus | Plus | Semicolon | Slash | Star
  | Bang | BangEqual
  | Equal | EqualEqual
  | Greater | GreaterEqual
  | Less | LessEqual
  | Identifier | String | Number
  | And | Class | Else | False | Fun | For | If | Nil | Or
  | Print | Return | Super | This | True | Var | While
  | Eof
  deriving DecidableEq, Repr

/-- `Token` from `scanner.rs`; Rust `String` fields become `List Char`. -/
structure Token where
  type : TokenType
  lexeme : List Char
  literal : List Char
  line : Nat
  deriving DecidableEq, Repr

/-- Modelled from the spec: the lexical error type is referenced by
`scanner.rs` as `crate::Error` but its definition is not under `src/`.
Per spec section 3, a LexError carries a human-readable `message`, an
optional `location` ("where") annotation that is empty for generic
errors, and a 1-based `line`.  The two-argument `Error::new(msg, line)`
call sites are modelled with an empty `location`. -/
structure Error where
  message : List Char
  location : List Char
  line : Nat
  deriving DecidableEq, Repr

/-- Scanner state from `scanner.rs`.  The `keywords` field is omitted
from the record: it is a static table, constant after construction
(spec sections 3 and 9), modelled as the function `keywords` below. -/
structure Scanner where
  source : List Char
  tokens : List Token
  start : Nat
  current : Nat
  line : Nat
  deriving DecidableEq, Repr

/-- `str_len` from `scanner.rs`: `s.chars().count()`. -/
def str_len (s : List Char) : Nat := s.length

/-- `char_at` from `scanner.rs`: NUL when out of range, otherwise
`s.chars().skip(pos).next().unwrap()`. -/
def char_at (s : List Char) (pos : Nat) : Char :=
  if pos ≥ str_len s then Char.ofNat 0 else (s.drop pos).headD (Char.ofNat 0)

/-- `substring` from `scanner.rs`: clamps `e` to the length, empty when
the range is backwards or starts past the end. -/
def substring (s : List Char) (start : Nat) (e : Nat) : List Char :=
  if start > e ∨ start ≥ str_len s then []
  else
    let e2 := if e > str_len s then str_len s else e
    (s.drop start).take (e2 - start)

/-- `is_digit` from `scanner.rs`. -/
def is_digit (c : Char) : Bool := '0' ≤ c && c ≤ '9'

/-- `is_alpha` from `scanner.rs`. -/
def is_alpha (c : Char) : Bool :=
  ('a' ≤ c && c ≤ 'z') || ('A' ≤ c && c ≤ 'Z') || c = '_'

/-- `is_alphanumeric` from `scanner.rs`. -/
def is_alphanumeric (c : Char) : Bool := is_alpha c || is_digit c

/-- The keyword table built in `Scanner::new`: a finite map with the
sixteen reserved words, modelled as a lookup function. -/
def keywords (t : List Char) : Option TokenType :=
  if t = "and".data then some TokenType.And
  else if t = "or".data then some TokenType.Or
  else if t = "if".data then some TokenType.If
  else if t = "else".data then some TokenType.Else
  else if t = "for".data then some TokenType.For
  else if t = "while".data then some TokenType.While
  else if t = "var".data then some TokenType.Var
  else if t = "class".data then some TokenType.Class
  else if t = "fun".data then some TokenType.Fun
  else if t = "return".data then some TokenType.Return
  else if t = "print".data then some TokenType.Print
  else if t = "super".data then some TokenType.Super
  else if t = "this".data then some TokenType.This
  else if t = "true".data then some TokenType.True
  else if t = "false".data then some TokenType.False
  else if t = "nil".data then some TokenType.Nil
  else none

/-- `Scanner::new` (state fields only; see `keywords` for the table). -/
def Scanner.new (source : List Char) : Scanner :=
  ⟨source, [], 0, 0, 1⟩

/-- `Scanner::is_at_end`. -/
def Scanner.is_at_end (s : Scanner) : Bool :=
  s.current ≥ str_len s.source

/-- `Scanner::advance`: returns the consumed character and the state
with the cursor moved one code point forward. -/
def Scanner.advance (s : Scanner) : Char × Scanner :=
  (char_at s.source s.current, { s with current := s.current + 1 })

/-- `Scanner::peek`. -/
def Scanner.peek (s : Scanner) : Char :=
  if s.is_at_end then Char.ofNat 0 else char_at s.source s.current

/-- `Scanner::peek_next`. -/
def Scanner.peek_next (s : Scanner) : Char :=
  if s.current + 1 ≥ str_len s.source then Char.ofNat 0
  else char_at s.source (s.current + 1)

/-- `Scanner::advance_if_equal`. -/
def Scanner.advance_if_equal (s : Scanner) (c : Char) : Bool × Scanner :=
  let p := s.peek
  if p = Char.ofNat 0 ∨ p ≠ c then (false, s)
  else (true, (s.advance).2)

/-- `Scanner::add_token_literal`: appends a token whose lexeme is the
source slice from `start` to `current`. -/
def Scanner.add_token_literal (s : Scanner) (t : TokenType) (literal : List Char) : Scanner :=
  { s with tokens := s.tokens ++ [⟨t, substring s.source s.start s.current, literal, s.line⟩] }

/-- `Scanner::add_token`. -/
def Scanner.add_token (s : Scanner) (t : TokenType) : Scanner :=
  s.add_token_literal t []

/-- The `while self.peek() != '\n' && !self.is_at_end()` loop of the
line-comment arm of `scan_token`, with fuel. -/
def lineCommentLoop : Nat → Scanner → Option Scanner
  | 0, _ => none
  | fuel+1, s =>
    if s.peek ≠ '\n' ∧ s.is_at_end = false then lineCommentLoop fuel (s.advance).2
    else some s

/-- The block-comment `loop` of `scan_token`, with fuel.  Note the Rust
code: at `*/` with `nesting_layer != 1` the counter is decremented but
the two characters are not consumed, and newlines met inside the loop
do not touch `line`. -/
def commentLoop : Nat → Nat → Scanner → Option (Except Error Scanner)
  | 0, _, _ => none
  | fuel+1, nesting, s =>
    if s.is_at_end then
      some (.error ⟨"Unbalanced block comment".data ++
        (if nesting > 0 then ": missing closing */".data else []), [], s.line⟩)
    else if s.peek = '/' ∧ s.peek_next = '*' then
      commentLoop fuel (nesting + 1) (((s.advance).2.advance).2)
    else if s.peek = '*' ∧ s.peek_next = '/' then
      if nesting = 1 then some (.ok (((s.advance).2.advance).2))
      else commentLoop fuel (nesting - 1) s
    else commentLoop fuel nesting ((s.advance).2)

/-- The `while is_digit(self.peek())` loop of `read_number`, with fuel. -/
def skipDigits : Nat → Scanner → Option Scanner
  | 0, _ => none
  | fuel+1, s =>
    if is_digit s.peek then skipDigits fuel (s.advance).2
    else some s

/-- The `while is_alphanumeric(self.peek())` loop of `read_identifier`,
with fuel. -/
def skipAlnum : Nat → Scanner → Option Scanner
  | 0, _ => none
  | fuel+1, s =>
    if is_alphanumeric s.peek then skipAlnum fuel (s.advance).2
    else some s

/-- The `while self.peek() != '"' && !self.is_at_end()` loop of
`read_string`, with fuel; embedded newlines increment `line`. -/
def stringLoop : Nat → Scanner → Option Scanner
  | 0, _ => none
  | fuel+1, s =>
    if s.peek ≠ '"' ∧ s.is_at_end = false then
      let s1 := if s.peek = '\n' then { s with line := s.line + 1 } else s
      stringLoop fuel (s1.advance).2
    else some s

/-- `Scanner::read_number`. -/
def Scanner.read_number (s : Scanner) : Option (Except Error Scanner) :=
  match skipDigits (str_len s.source + 2) s with
  | none => none
  | some s1 =>
    match (if s1.peek = '.' ∧ is_digit s1.peek_next
           then skipDigits (str_len s1.source + 2) ((s1.advance).2)
           else some s1) with
    | none => none
    | some s2 =>
      some (.ok (s2.add_token_literal TokenType.Number (substring s2.source s2.start s2.current)))

/-- `Scanner::read_identifier`. -/
def Scanner.read_identifier (s : Scanner) : Option (Except Error Scanner) :=
  match skipAlnum (str_len s.source + 2) s with
  | none => none
  | some s1 =>
    let text := substring s1.source s1.start s1.current
    let t := match keywords text with
      | some t => t
      | none => TokenType.Identifier
    if t = TokenType.Identifier then some (.ok (s1.add_token_literal t text))
    else some (.ok (s1.add_token t))

/-- `Scanner::read_string`. -/
def Scanner.read_string (s : Scanner) : Option (Except Error Scanner) :=
  match stringLoop (str_len s.source + 2) s with
  | none => none
  | some s1 =>
    if s1.is_at_end then
      some (.error ⟨"Unterminated string".data, [], s1.line⟩)
    else
      let s2 := (s1.advance).2
      some (.ok (s2.add_token_literal TokenType.String
        (substring s2.source (s2.start + 1) (s2.current - 1))))

/-- `Scanner::scan_token`: the Rust `match` on the consumed character,
rendered as the equivalent chain of equality tests in source order. -/
def Scanner.scan_token (s0 : Scanner) : Option (Except Error Scanner) :=
  let c := (s0.advance).1
  let s := (s0.advance).2
  if c = '(' then some (.ok (s.add_token TokenType.LeftParen))
  else if c = ')' then some (.ok (s.add_token TokenType.RightParen))
  else if c = '{' then some (.ok (s.add_token TokenType.LeftBrace))
  else if c = '}' then some (.ok (s.add_token TokenType.RightBrace))
  else if c = ',' then some (.ok (s.add_token TokenType.Comma))
  else if c = '.' then some (.ok (s.add_token TokenType.Dot))
  else if c = '-' then some (.ok (s.add_token TokenType.Minus))
  else if c = '+' then some (.ok (s.add_token TokenType.Plus))
  else if c = ';' then some (.ok (s.add_token TokenType.Semicolon))
  else if c = '*' then some (.ok (s.add_token TokenType.Star))
  else if c = '!' then
    let bs := s.advance_if_equal '='
    some (.ok (bs.2.add_token (if bs.1 then TokenType.BangEqual else TokenType.Bang)))
  else if c = '=' then
    let bs := s.advance_if_equal '='
    some (.ok (bs.2.add_token (if bs.1 then TokenType.EqualEqual else TokenType.Equal)))
  else if c = '<' then
    let bs := s.advance_if_equal '='
    some (.ok (bs.2.add_token (if bs.1 then TokenType.LessEqual else TokenType.Less)))
  else if c = '>' then
    let bs := s.advance_if_equal '='
    some (.ok (bs.2.add_token (if bs.1 then TokenType.GreaterEqual else TokenType.Greater)))
  else if c = '/' then
    let bs := s.advance_if_equal '/'
    if bs.1 then
      match lineCommentLoop (str_len bs.2.source + 2) bs.2 with
      | none => none
      | some s1 => some (.ok s1)
    else
      let bs2 := bs.2.advance_if_equal '*'
      if bs2.1 then commentLoop (str_len bs2.2.source + 2) 1 bs2.2
      else some (.ok (bs2.2.add_token TokenType.Slash))
  else if c = ' ' ∨ c = '\r' ∨ c = '\t' then some (.ok s)
  else if c = '"' then s.read_string
  else if c = '\n' then some (.ok { s with line := s.line + 1 })
  else if is_digit c then s.read_number
  else if is_alpha c then s.read_identifier
  else some (.error ⟨"Unexpected character.".data, [], s.line⟩)

/-- The `while !self.is_at_end()` loop of `scan_tokens`, with fuel:
set `start = current`, scan one token, abort on the first error. -/
def scanLoop : Nat → Scanner → Option (Except Error Scanner)
  | 0, _ => none
  | fuel+1, s =>
    if s.is_at_end then some (.ok s)
    else
      match Scanner.scan_token { s with start := s.current } with
      | none => none
      | some (.error e) => some (.error e)
      | some (.ok s2) => scanLoop fuel s2

/-- `Scanner::scan_tokens`: run the loop, then push the Eof sentinel. -/
def Scanner.scan_tokens (s : Scanner) : Option (Except Error (List Token)) :=
  match scanLoop (str_len s.source + 2) s with
  | none => none
  | some (.error e) => some (.error e)
  | some (.ok s2) => some (.ok (s2.tokens ++ [⟨TokenType.Eof, [], [], s2.line⟩]))

/-- Scanning a whole source text: `Scanner::new` followed by
`scan_tokens`, as the drivers do. -/
def scanSource (source : List Char) : Option (Except Error (List Token)) :=
  (Scanner.new source).scan_tokens

/-! ## Basic facts about the cursor helpers -/

theorem drop_cons_facts (src : List Char) (cur : Nat) (x : Char) (r : List Char)
    (h : src.drop cur = x :: r) :
    src.drop (cur + 1) = r ∧ cur < str_len src ∧ char_at src cur = x := by
  have hlen : cur < src.length := by
    by_contra hc
    rw [List.drop_eq_nil_of_le (by omega)] at h
    exact List.noConfusion h
  refine ⟨?_, hlen, ?_⟩
  · rw [← List.tail_drop, h]
    rfl
  · unfold char_at str_len
    rw [if_neg (by omega), h]
    rfl

theorem drop_nil_at_end (src : List Char) (cur : Nat) (h : src.drop cur = []) :
    str_len src ≤ cur := by
  have := List.length_drop cur src
  rw [h] at this
  simp only [List.length_nil] at this
  unfold str_len
  omega

theorem is_at_end_false (s : Scanner) (h : s.current < str_len s.source) :
    s.is_at_end = false := by
  simp only [Scanner.is_at_end, ge_iff_le, decide_eq_false_iff_not, not_le]
  exact h

theorem is_at_end_true (s : Scanner) (h : str_len s.source ≤ s.current) :
    s.is_at_end = true := by
  simp only [Scanner.is_at_end, ge_iff_le, decide_eq_true_eq]
  exact h

theorem peek_of_drop (s : Scanner) (x : Char) (r : List Char)
    (h : s.source.drop s.current = x :: r) :
    s.peek = x ∧ s.is_at_end = false := by
  obtain ⟨-, hlt, hat⟩ := drop_cons_facts _ _ _ _ h
  have hend := is_at_end_false s hlt
  exact ⟨by rw [Scanner.peek, hend]; simpa using hat, hend⟩

theorem peek_of_nil (s : Scanner) (h : s.source.drop s.current = []) :
    s.peek = Char.ofNat 0 := by
  rw [Scanner.peek, is_at_end_true s (drop_nil_at_end _ _ h)]
  rfl

theorem peek_next_of_drop (s : Scanner) (x y : Char) (r : List Char)
    (h : s.source.drop s.current = x :: y :: r) :
    s.peek_next = y := by
  obtain ⟨h1, -, -⟩ := drop_cons_facts _ _ _ _ h
  obtain ⟨-, hlt, hat⟩ := drop_cons_facts _ _ _ _ h1
  rw [Scanner.peek_next, if_neg (by omega)]
  exact hat

theorem peek_next_of_short (s : Scanner) (h : str_len s.source ≤ s.current + 1) :
    s.peek_next = Char.ofNat 0 := by
  rw [Scanner.peek_next, if_pos (by omega)]

theorem substring_eq (s : List Char) (a e : Nat) (h : a ≤ e) :
    substring s a e = (s.drop a).take (e - a) := by
  unfold substring
  split
  · next hc =>
    rcases hc with hc | hc
    · omega
    · rw [List.drop_eq_nil_of_le (by unfold str_len at hc; omega)]
      simp
  · next hc =>
    split
    · next he =>
      have hlen : (s.drop a).length = s.length - a := List.length_drop a s
      rw [List.take_of_length_le (by unfold str_len at *; omega),
        List.take_of_length_le (by unfold str_len at *; omega)]
    · rfl

/-! ## Character-class facts -/

theorem alpha_ne (c x : Char) (hc : is_alpha c = true) (hx : is_alpha x = false) :
    ¬(c = x) := by
  intro h
  rw [h, hx] at hc
  exact Bool.noConfusion hc

theorem digit_ne (c x : Char) (hc : is_digit c = true) (hx : is_digit x = false) :
    ¬(c = x) := by
  intro h
  rw [h, hx] at hc
  exact Bool.noConfusion hc

theorem alpha_not_digit (c : Char) (h : is_alpha c = true) : is_digit c = false := by
  by_contra hb
  rw [Bool.not_eq_false] at hb
  simp only [is_digit, Bool.and_eq_true, decide_eq_true_eq] at hb
  simp only [is_alpha, Bool.or_eq_true, Bool.and_eq_true, decide_eq_true_eq] at h
  rcases h with (⟨h1, -⟩ | ⟨h1, -⟩) | rfl
  · exact absurd (le_trans h1 hb.2) (by decide)
  · exact absurd (le_trans h1 hb.2) (by decide)
  · exact absurd hb (by decide)

theorem at_end_false_lt (s : Scanner) (h : s.is_at_end = false) :
    s.current < str_len s.source := by
  simp only [Scanner.is_at_end, ge_iff_le, decide_eq_false_iff_not, not_le] at h
  exact h

/-! ## The string-literal loop -/

theorem stringLoop_body (body : List Char) :
    ∀ (fuel : Nat) (src toks_ : _) (start cur line : Nat) (rest : List Char),
    src.drop cur = body ++ '"' :: rest → '"' ∉ body → body.length < fuel →
    stringLoop fuel ⟨src, toks_, start, cur, line⟩ =
      some ⟨src, toks_, start, cur + body.length, line + body.count '\n'⟩ := by
  induction body with
  | nil =>
    intro fuel src toks_ start cur line rest hdrop hq hfuel
    obtain ⟨f, rfl⟩ : ∃ f, fuel = f + 1 := ⟨fuel - 1, by omega⟩
    simp only [List.nil_append] at hdrop
    obtain ⟨hpeek, hend⟩ :=
      peek_of_drop ⟨src, toks_, start, cur, line⟩ '"' rest hdrop
    simp only [stringLoop]
    rw [if_neg (fun hc => hc.1 hpeek)]
    simp
  | cons c bs ih =>
    intro fuel src toks_ start cur line rest hdrop hq hfuel
    obtain ⟨f, rfl⟩ : ∃ f, fuel = f + 1 := ⟨fuel - 1, by omega⟩
    simp only [List.mem_cons, not_or] at hq
    obtain ⟨hq1, hq2⟩ := hq
    have hq2' : '"' ∉ bs := hq2
    rw [List.cons_append] at hdrop
    obtain ⟨hpeek, hend⟩ :=
      peek_of_drop ⟨src, toks_, start, cur, line⟩ c (bs ++ '"' :: rest) hdrop
    obtain ⟨hdrop1, hlt, -⟩ := drop_cons_facts src cur c _ hdrop
    simp only [stringLoop]
    rw [if_pos ⟨fun h => hq1 (h.symm.trans hpeek), hend⟩, hpeek]
    by_cases hc : c = '\n'
    · rw [if_pos hc]
      simp only [Scanner.advance]
      rw [ih f src toks_ start (cur + 1) (line + 1) rest hdrop1 hq2'
        (by simp at hfuel ⊢; omega)]
      rw [List.count_cons, if_pos (by simp [hc])]
      simp only [Option.some.injEq, Scanner.mk.injEq, List.length_cons,
        eq_self_iff_true, true_and, and_true]
      omega
    · rw [if_neg hc]
      simp only [Scanner.advance]
      rw [ih f src toks_ start (cur + 1) line rest hdrop1 hq2'
        (by simp at hfuel ⊢; omega)]
      rw [List.count_cons, if_neg (by simp [hc])]
      simp only [Option.some.injEq, Scanner.mk.injEq, List.length_cons,
        eq_self_iff_true, true_and, and_true]
      omega

theorem stringLoop_noquote (body : List Char) :
    ∀ (fuel : Nat) (src toks_ : _) (start cur line : Nat),
    src.drop cur = body → '"' ∉ body → body.length < fuel →
    stringLoop fuel ⟨src, toks_, start, cur, line⟩ =
      some ⟨src, toks_, start, cur + body.length, line + body.count '\n'⟩ := by
  induction body with
  | nil =>
    intro fuel src toks_ start cur line hdrop hq hfuel
    obtain ⟨f, rfl⟩ : ∃ f, fuel = f + 1 := ⟨fuel - 1, by omega⟩
    have hpeek := peek_of_nil ⟨src, toks_, start, cur, line⟩ hdrop
    have hend := is_at_end_true ⟨src, toks_, start, cur, line⟩ (drop_nil_at_end _ _ hdrop)
    simp only [stringLoop]
    rw [if_neg (fun hc => by rw [hend] at hc; exact Bool.noConfusion hc.2)]
    simp
  | cons c bs ih =>
    intro fuel src toks_ start cur line hdrop hq hfuel
    obtain ⟨f, rfl⟩ : ∃ f, fuel = f + 1 := ⟨fuel - 1, by omega⟩
    simp only [List.mem_cons, not_or] at hq
    obtain ⟨hq1, hq2⟩ := hq
    obtain ⟨hpeek, hend⟩ := peek_of_drop ⟨src, toks_, start, cur, line⟩ c bs hdrop
    obtain ⟨hdrop1, hlt, -⟩ := drop_cons_facts src cur c _ hdrop
    simp only [stringLoop]
    rw [if_pos ⟨fun h => hq1 (h.symm.trans hpeek), hend⟩, hpeek]
    by_cases hc : c = '\n'
    · rw [if_pos hc]
      simp only [Scanner.advance]
      rw [ih f src toks_ start (cur + 1) (line + 1) hdrop1 hq2
        (by simp at hfuel ⊢; omega)]
      rw [List.count_cons, if_pos (by simp [hc])]
      simp only [Option.some.injEq, Scanner.mk.injEq, List.length_cons,
        eq_self_iff_true, true_and, and_true]
      omega
    · rw [if_neg hc]
      simp only [Scanner.advance]
      rw [ih f src toks_ start (cur + 1) line hdrop1 hq2
        (by simp at hfuel ⊢; omega)]
      rw [List.count_cons, if_neg (by simp [hc])]
      simp only [Option.some.injEq, Scanner.mk.injEq, List.length_cons,
        eq_self_iff_true, true_and, and_true]
      omega

theorem stringLoop_some :
    ∀ (fuel : Nat) (s : Scanner), str_len s.source - s.current < fuel →
    ∃ s1, stringLoop fuel s = some s1 ∧ s1.source = s.source ∧
      s1.tokens = s.tokens ∧ s1.start = s.start ∧ s.current ≤ s1.current := by
  intro fuel
  induction fuel with
  | zero => intro s h; omega
  | succ f ih =>
    intro s h
    obtain ⟨src, toks_, start, cur, line⟩ := s
    simp only [stringLoop]
    by_cases hcond : (Scanner.mk src toks_ start cur line).peek ≠ '"' ∧
        (Scanner.mk src toks_ start cur line).is_at_end = false
    · rw [if_pos hcond]
      have hlt := at_end_false_lt _ hcond.2
      simp only [str_len] at hlt h
      by_cases hnl : (Scanner.mk src toks_ start cur line).peek = '\n'
      · rw [if_pos hnl]
        simp only [Scanner.advance]
        obtain ⟨s1, heq, h1, h2, h3, h4⟩ :=
          ih ⟨src, toks_, start, cur + 1, line + 1⟩ (by simp [str_len]; omega)
        exact ⟨s1, heq, h1, h2, h3, by simp at h4 ⊢; omega⟩
      · rw [if_neg hnl]
        simp only [Scanner.advance]
        obtain ⟨s1, heq, h1, h2, h3, h4⟩ :=
          ih ⟨src, toks_, start, cur + 1, line⟩ (by simp [str_len]; omega)
        exact ⟨s1, heq, h1, h2, h3, by simp at h4 ⊢; omega⟩
    · rw [if_neg hcond]
      exact ⟨_, rfl, rfl, rfl, rfl, le_refl _⟩

theorem peek_next_lt (s : Scanner) (h : s.peek_next ≠ Char.ofNat 0) :
    s.current + 1 < str_len s.source := by
  by_contra hc
  exact h (peek_next_of_short s (by omega))

theorem peek_nonnul_not_end (s : Scanner) (h : s.peek ≠ Char.ofNat 0) :
    s.is_at_end = false ∧ s.current < str_len s.source := by
  cases hq : s.is_at_end with
  | false => exact ⟨rfl, at_end_false_lt s hq⟩
  | true => exact absurd (by rw [Scanner.peek, if_pos hq]) h

/-! ## The digit and identifier run loops -/

theorem skipDigits_run (ds : List Char) :
    ∀ (fuel : Nat) (src : List Char) (toks_ : List Token) (start cur line : Nat)
      (rest : List Char),
    src.drop cur = ds ++ rest → (∀ c ∈ ds, is_digit c = true) →
    (∀ c, rest.head? = some c → is_digit c = false) → ds.length < fuel →
    skipDigits fuel ⟨src, toks_, start, cur, line⟩ =
      some ⟨src, toks_, start, cur + ds.length, line⟩ := by
  induction ds with
  | nil =>
    intro fuel src toks_ start cur line rest hdrop hds hrest hfuel
    obtain ⟨f, rfl⟩ : ∃ f, fuel = f + 1 := ⟨fuel - 1, by omega⟩
    simp only [List.nil_append] at hdrop
    have hpk : is_digit ((⟨src, toks_, start, cur, line⟩ : Scanner).peek) = false := by
      cases rest with
      | nil => rw [peek_of_nil _ hdrop]; decide
      | cons r rs =>
        rw [(peek_of_drop _ r rs hdrop).1]
        exact hrest r rfl
    simp only [skipDigits]
    rw [if_neg (by rw [hpk]; exact Bool.noConfusion)]
    simp
  | cons d ds ih =>
    intro fuel src toks_ start cur line rest hdrop hds hrest hfuel
    obtain ⟨f, rfl⟩ : ∃ f, fuel = f + 1 := ⟨fuel - 1, by omega⟩
    rw [List.cons_append] at hdrop
    obtain ⟨hpeek, -⟩ :=
      peek_of_drop ⟨src, toks_, start, cur, line⟩ d (ds ++ rest) hdrop
    obtain ⟨hdrop1, hlt, -⟩ := drop_cons_facts src cur d _ hdrop
    simp only [skipDigits]
    rw [if_pos (by rw [hpeek]; exact hds d (List.mem_cons_self d ds))]
    simp only [Scanner.advance]
    rw [ih f src toks_ start (cur + 1) line rest hdrop1
      (fun c hc => hds c (List.mem_cons_of_mem d hc)) hrest
      (by simp only [List.length_cons] at hfuel; omega)]
    simp only [Option.some.injEq, Scanner.mk.injEq, List.length_cons,
      eq_self_iff_true, true_and, and_true]
    omega

theorem skipDigits_some :
    ∀ (fuel : Nat) (s : Scanner), str_len s.source - s.current < fuel →
    ∃ s1, skipDigits fuel s = some s1 ∧ s1.source = s.source ∧
      s1.tokens = s.tokens ∧ s1.start = s.start ∧ s1.line = s.line ∧
      s.current ≤ s1.current := by
  intro fuel
  induction fuel with
  | zero => intro s h; omega
  | succ f ih =>
    intro s h
    obtain ⟨src, toks_, start, cur, line⟩ := s
    simp only [skipDigits]
    by_cases hd : is_digit (Scanner.mk src toks_ start cur line).peek = true
    · rw [if_pos hd]
      obtain ⟨-, hlt⟩ := peek_nonnul_not_end _
        (digit_ne _ _ hd (by decide))
      simp only [Scanner.advance]
      obtain ⟨s1, heq, h1, h2, h3, h4, h5⟩ :=
        ih ⟨src, toks_, start, cur + 1, line⟩ (by simp [str_len] at hlt h ⊢; omega)
      exact ⟨s1, heq, h1, h2, h3, h4, by simp at h5 ⊢; omega⟩
    · rw [if_neg hd]
      exact ⟨_, rfl, rfl, rfl, rfl, rfl, le_refl _⟩

theorem skipAlnum_run (ds : List Char) :
    ∀ (fuel : Nat) (src : List Char) (toks_ : List Token) (start cur line : Nat)
      (rest : List Char),
    src.drop cur = ds ++ rest → (∀ c ∈ ds, is_alphanumeric c = true) →
    (∀ c, rest.head? = some c → is_alphanumeric c = false) → ds.length < fuel →
    skipAlnum fuel ⟨src, toks_, start, cur, line⟩ =
      some ⟨src, toks_, start, cur + ds.length, line⟩ := by
  induction ds with
  | nil =>
    intro fuel src toks_ start cur line rest hdrop hds hrest hfuel
    obtain ⟨f, rfl⟩ : ∃ f, fuel = f + 1 := ⟨fuel - 1, by omega⟩
    simp only [List.nil_append] at hdrop
    have hpk : is_alphanumeric ((⟨src, toks_, start, cur, line⟩ : Scanner).peek) = false := by
      cases rest with
      | nil => rw [peek_of_nil _ hdrop]; decide
      | cons r rs =>
        rw [(peek_of_drop _ r rs hdrop).1]
        exact hrest r rfl
    simp only [skipAlnum]
    rw [if_neg (by rw [hpk]; exact Bool.noConfusion)]
    simp
  | cons d ds ih =>
    intro fuel src toks_ start cur line rest hdrop hds hrest hfuel
    obtain ⟨f, rfl⟩ : ∃ f, fuel = f + 1 := ⟨fuel - 1, by omega⟩
    rw [List.cons_append] at hdrop
    obtain ⟨hpeek, -⟩ :=
      peek_of_drop ⟨src, toks_, start, cur, line⟩ d (ds ++ rest) hdrop
    obtain ⟨hdrop1, hlt, -⟩ := drop_cons_facts src cur d _ hdrop
    simp only [skipAlnum]
    rw [if_pos (by rw [hpeek]; exact hds d (List.mem_cons_self d ds))]
    simp only [Scanner.advance]
    rw [ih f src toks_ start (cur + 1) line rest hdrop1
      (fun c hc => hds c (List.mem_cons_of_mem d hc)) hrest
      (by simp only [List.length_cons] at hfuel; omega)]
    simp only [Option.some.injEq, Scanner.mk.injEq, List.length_cons,
      eq_self_iff_true, true_and, and_true]
    omega

theorem skipAlnum_some :
    ∀ (fuel : Nat) (s : Scanner), str_len s.source - s.current < fuel →
    ∃ s1, skipAlnum fuel s = some s1 ∧ s1.source = s.source ∧
      s1.tokens = s.tokens ∧ s1.start = s.start ∧ s1.line = s.line ∧
      s.current ≤ s1.current := by
  intro fuel
  induction fuel with
  | zero => intro s h; omega
  | succ f ih =>
    intro s h
    obtain ⟨src, toks_, start, cur, line⟩ := s
    simp only [skipAlnum]
    by_cases hd : is_alphanumeric (Scanner.mk src toks_ start cur line).peek = true
    · rw [if_pos hd]
      have hne : (Scanner.mk src toks_ start cur line).peek ≠ Char.ofNat 0 := by
        intro hc
        rw [hc] at hd
        exact Bool.noConfusion ((rfl : is_alphanumeric (Char.ofNat 0) = false) ▸ hd)
      obtain ⟨-, hlt⟩ := peek_nonnul_not_end _ hne
      simp only [Scanner.advance]
      obtain ⟨s1, heq, h1, h2, h3, h4, h5⟩ :=
        ih ⟨src, toks_, start, cur + 1, line⟩ (by simp [str_len] at hlt h ⊢; omega)
      exact ⟨s1, heq, h1, h2, h3, h4, by simp at h5 ⊢; omega⟩
    · rw [if_neg hd]
      exact ⟨_, rfl, rfl, rfl, rfl, rfl, le_refl _⟩

/-! ## The line-comment loop -/

theorem lineCommentLoop_some :
    ∀ (fuel : Nat) (s : Scanner), str_len s.source - s.current < fuel →
    ∃ s1, lineCommentLoop fuel s = some s1 ∧ s1.source = s.source ∧
      s1.tokens = s.tokens ∧ s1.start = s.start ∧ s1.line = s.line ∧
      s.current ≤ s1.current := by
  intro fuel
  induction fuel with
  | zero => intro s h; omega
  | succ f ih =>
    intro s h
    obtain ⟨src, toks_, start, cur, line⟩ := s
    simp only [lineCommentLoop]
    by_cases hcond : (Scanner.mk src toks_ start cur line).peek ≠ '\n' ∧
        (Scanner.mk src toks_ start cur line).is_at_end = false
    · rw [if_pos hcond]
      have hlt := at_end_false_lt _ hcond.2
      simp only [Scanner.advance]
      obtain ⟨s1, heq, h1, h2, h3, h4, h5⟩ :=
        ih ⟨src, toks_, start, cur + 1, line⟩ (by simp [str_len] at hlt h ⊢; omega)
      exact ⟨s1, heq, h1, h2, h3, h4, by simp at h5 ⊢; omega⟩
    · rw [if_neg hcond]
      exact ⟨_, rfl, rfl, rfl, rfl, rfl, le_refl _⟩

/-! ## The block-comment loop -/

theorem commentLoop_spec :
    ∀ (fuel nesting : Nat) (s : Scanner), 0 < nesting →
    str_len s.source - s.current + nesting < fuel →
    (∃ s2, commentLoop fuel nesting s = some (.ok s2) ∧ s2.source = s.source ∧
       s2.tokens = s.tokens ∧ s2.start = s.start ∧ s2.line = s.line ∧
       s.current ≤ s2.current)
    ∨ commentLoop fuel nesting s = some (.error
        ⟨"Unbalanced block comment: missing closing */".data, [], s.line⟩) := by
  intro fuel
  induction fuel with
  | zero => intro nesting s hn hf; omega
  | succ f ih =>
    intro nesting s hn hf
    obtain ⟨src, toks_, start, cur, line⟩ := s
    simp only [commentLoop]
    by_cases hend : (Scanner.mk src toks_ start cur line).is_at_end = true
    · rw [if_pos hend, if_pos (by omega : nesting > 0)]
      right
      rfl
    · rw [if_neg hend]
      have hend' : (Scanner.mk src toks_ start cur line).is_at_end = false :=
        Bool.eq_false_iff.mpr hend
      have hlt := at_end_false_lt _ hend'
      by_cases h1 : (Scanner.mk src toks_ start cur line).peek = '/' ∧
          (Scanner.mk src toks_ start cur line).peek_next = '*'
      · rw [if_pos h1]
        have h2 : cur + 1 < str_len src :=
          peek_next_lt _ (by rw [h1.2]; decide)
        simp only [Scanner.advance]
        rcases ih (nesting + 1) ⟨src, toks_, start, cur + 1 + 1, line⟩ (by omega)
            (by simp [str_len] at hlt h2 hf ⊢; omega) with
          ⟨s2, heq, e1, e2, e3, e4, e5⟩ | herr
        · exact Or.inl ⟨s2, heq, e1, e2, e3, e4, by simp at e5 ⊢; omega⟩
        · exact Or.inr herr
      · rw [if_neg h1]
        by_cases h2 : (Scanner.mk src toks_ start cur line).peek = '*' ∧
            (Scanner.mk src toks_ start cur line).peek_next = '/'
        · rw [if_pos h2]
          by_cases h3 : nesting = 1
          · rw [if_pos h3]
            simp only [Scanner.advance]
            exact Or.inl ⟨_, rfl, rfl, rfl, rfl, rfl, by simp; omega⟩
          · rw [if_neg h3]
            exact ih (nesting - 1) ⟨src, toks_, start, cur, line⟩ (by omega) (by omega)
        · rw [if_neg h2]
          simp only [Scanner.advance]
          rcases ih nesting ⟨src, toks_, start, cur + 1, line⟩ hn
              (by simp [str_len] at hlt hf ⊢; omega) with
            ⟨s2, heq, e1, e2, e3, e4, e5⟩ | herr
          · exact Or.inl ⟨s2, heq, e1, e2, e3, e4, by simp at e5 ⊢; omega⟩
          · exact Or.inr herr

theorem take_len_append_cons (a b : Char) (body rest : List Char) :
    (a :: (body ++ b :: rest)).take (body.length + 2) = a :: (body ++ [b]) := by
  have h1 : a :: (body ++ b :: rest) = (a :: (body ++ [b])) ++ rest := by simp
  have h2 : (a :: (body ++ [b])).length = body.length + 2 := by simp
  rw [h1, ← h2, List.take_left]

/-! ## `read_string` -/

theorem read_string_terminated (src : List Char) (toks_ : List Token)
    (start line : Nat) (body rest : List Char)
    (hdrop : src.drop start = '"' :: (body ++ '"' :: rest))
    (hq : '"' ∉ body) :
    Scanner.read_string ⟨src, toks_, start, start + 1, line⟩ =
      some (.ok ⟨src,
        toks_ ++ [⟨TokenType.String, '"' :: (body ++ ['"']), body,
          line + body.count '\n'⟩],
        start, start + body.length + 2, line + body.count '\n'⟩) := by
  obtain ⟨hdrop1, hstart_lt, -⟩ := drop_cons_facts src start _ _ hdrop
  have hlen1 : src.length - (start + 1) = body.length + 1 + rest.length := by
    have h := congrArg List.length hdrop1
    rw [List.length_drop] at h
    simp only [List.length_append, List.length_cons] at h
    omega
  have hlen2 : start + 1 + body.length + 1 ≤ src.length := by omega
  have hfuel : body.length < str_len src + 2 := by unfold str_len; omega
  unfold Scanner.read_string
  dsimp only
  rw [stringLoop_body body (str_len src + 2) src toks_ start (start + 1) line
    rest hdrop1 hq hfuel]
  dsimp only
  have hend := is_at_end_false
    ⟨src, toks_, start, start + 1 + body.length, line + body.count '\n'⟩
    (by simp only [str_len]; omega)
  rw [if_neg (by rw [hend]; exact Bool.noConfusion)]
  dsimp only [Scanner.advance, Scanner.add_token_literal]
  have hsub1 : substring src start (start + 1 + body.length + 1) =
      '"' :: (body ++ ['"']) := by
    rw [substring_eq src start _ (by omega),
      show start + 1 + body.length + 1 - start = body.length + 2 by omega,
      hdrop, take_len_append_cons]
  have hsub2 : substring src (start + 1) (start + 1 + body.length + 1 - 1) =
      body := by
    rw [substring_eq src (start + 1) _ (by omega),
      show start + 1 + body.length + 1 - 1 - (start + 1) = body.length by omega,
      hdrop1, List.take_left]
  rw [hsub1, hsub2]
  simp only [Option.some.injEq, Except.ok.injEq, Scanner.mk.injEq,
    eq_self_iff_true, true_and, and_true]
  omega

theorem read_string_unterminated (s : Scanner)
    (hq : '"' ∉ s.source.drop s.current) :
    s.read_string = some (.error ⟨"Unterminated string".data, [],
      s.line + (s.source.drop s.current).count '\n'⟩) := by
  obtain ⟨src, toks_, start, cur, line⟩ := s
  have hlen : (src.drop cur).length = src.length - cur := List.length_drop cur src
  have hfuel : (src.drop cur).length < str_len src + 2 := by unfold str_len; omega
  unfold Scanner.read_string
  dsimp only
  rw [stringLoop_noquote (src.drop cur) (str_len src + 2) src toks_ start cur line
    rfl hq hfuel]
  dsimp only
  rw [if_pos (is_at_end_true
    ⟨src, toks_, start, cur + (src.drop cur).length, line + (src.drop cur).count '\n'⟩
    (by simp only [str_len]; omega))]

theorem read_string_spec (s : Scanner) :
    ∃ r, s.read_string = some r ∧
      ∀ s2, r = .ok s2 → s2.source = s.source ∧ s.current ≤ s2.current := by
  obtain ⟨s1, heq, h1, h2, h3, h4⟩ :=
    stringLoop_some (str_len s.source + 2) s (by omega)
  unfold Scanner.read_string
  rw [heq]
  dsimp only
  by_cases hend : s1.is_at_end = true
  · rw [if_pos hend]
    exact ⟨_, rfl, fun s2 hc => Except.noConfusion hc⟩
  · rw [if_neg hend]
    refine ⟨_, rfl, fun s2 hc => ?_⟩
    injection hc with hc
    subst hc
    simp only [Scanner.advance, Scanner.add_token_literal]
    exact ⟨h1, by omega⟩

/-! ## `read_number` and `read_identifier` -/

theorem read_number_some (s : Scanner) :
    ∃ s2, s.read_number = some (.ok s2) ∧ s2.source = s.source ∧
      s.current ≤ s2.current := by
  obtain ⟨s1, heq, h1, h2, h3, h4, h5⟩ :=
    skipDigits_some (str_len s.source + 2) s (by omega)
  unfold Scanner.read_number
  rw [heq]
  dsimp only
  by_cases hfr : s1.peek = '.' ∧ is_digit s1.peek_next = true
  · rw [if_pos hfr]
    obtain ⟨s2, heq2, g1, g2, g3, g4, g5⟩ :=
      skipDigits_some (str_len s1.source + 2) (s1.advance).2
        (by simp only [Scanner.advance]; omega)
    rw [heq2]
    dsimp only
    have g1' := g1
    have g5' := g5
    simp only [Scanner.advance] at g1' g5'
    refine ⟨_, rfl, ?_, ?_⟩
    · simp only [Scanner.add_token_literal]
      rw [g1', h1]
    · simp only [Scanner.add_token_literal]
      omega
  · rw [if_neg hfr]
    dsimp only
    refine ⟨_, rfl, ?_, ?_⟩
    · simp only [Scanner.add_token_literal]
      rw [h1]
    · simp only [Scanner.add_token_literal]
      omega

theorem read_identifier_spec (s : Scanner) :
    ∃ s2, s.read_identifier = some (.ok s2) ∧ s2.source = s.source ∧
      s.current ≤ s2.current := by
  obtain ⟨s1, heq, h1, h2, h3, h4, h5⟩ :=
    skipAlnum_some (str_len s.source + 2) s (by omega)
  unfold Scanner.read_identifier
  rw [heq]
  dsimp only
  by_cases ht : (match keywords (substring s1.source s1.start s1.current) with
      | some t => t
      | none => TokenType.Identifier) = TokenType.Identifier
  · rw [if_pos ht]
    exact ⟨_, rfl, by simp only [Scanner.add_token_literal]; exact h1,
      by simp only [Scanner.add_token_literal]; omega⟩
  · rw [if_neg ht]
    exact ⟨_, rfl,
      by simp only [Scanner.add_token, Scanner.add_token_literal]; exact h1,
      by simp only [Scanner.add_token, Scanner.add_token_literal]; omega⟩

theorem digit_is_alnum (c : Char) (h : is_digit c = true) :
    is_alphanumeric c = true := by
  simp [is_alphanumeric, h]

theorem alpha_is_alnum (c : Char) (h : is_alpha c = true) :
    is_alphanumeric c = true := by
  simp [is_alphanumeric, h]

theorem scan_token_spec (st : Scanner) :
    ∃ r, st.scan_token = some r ∧
      ∀ s2, r = .ok s2 → s2.source = st.source ∧ st.current < s2.current := by
  obtain ⟨src, toks_, start, cur, line⟩ := st
  unfold Scanner.scan_token
  dsimp only [Scanner.advance, Scanner.advance_if_equal, Scanner.add_token,
    Scanner.add_token_literal]
  by_cases h01 : char_at src cur = '('
  · rw [if_pos h01]
    refine ⟨_, rfl, fun s2 hc => ?_⟩
    injection hc with hc
    subst hc
    dsimp only
    exact ⟨rfl, by omega⟩
  rw [if_neg h01]
  by_cases h02 : char_at src cur = ')'
  · rw [if_pos h02]
    refine ⟨_, rfl, fun s2 hc => ?_⟩
    injection hc with hc
    subst hc
    dsimp only
    exact ⟨rfl, by omega⟩
  rw [if_neg h02]
  by_cases h03 : char_at src cur = '{'
  · rw [if_pos h03]
    refine ⟨_, rfl, fun s2 hc => ?_⟩
    injection hc with hc
    subst hc
    dsimp only
    exact ⟨rfl, by omega⟩
  rw [if_neg h03]
  by_cases h04 : char_at src cur = '}'
  · rw [if_pos h04]
    refine ⟨_, rfl, fun s2 hc => ?_⟩
    injection hc with hc
    subst hc
    dsimp only
    exact ⟨rfl, by omega⟩
  rw [if_neg h04]
  by_cases h05 : char_at src cur = ','
  · rw [if_pos h05]
    refine ⟨_, rfl, fun s2 hc => ?_⟩
    injection hc with hc
    subst hc
    dsimp only
    exact ⟨rfl, by omega⟩
  rw [if_neg h05]
  by_cases h06 : char_at src cur = '.'
  · rw [if_pos h06]
    refine ⟨_, rfl, fun s2 hc => ?_⟩
    injection hc with hc
    subst hc
    dsimp only
    exact ⟨rfl, by omega⟩
  rw [if_neg h06]
  by_cases h07 : char_at src cur = '-'
  · rw [if_pos h07]
    refine ⟨_, rfl, fun s2 hc => ?_⟩
    injection hc with hc
    subst hc
    dsimp only
    exact ⟨rfl, by omega⟩
  rw [if_neg h07]
  by_cases h08 : char_at src cur = '+'
  · rw [if_pos h08]
    refine ⟨_, rfl, fun s2 hc => ?_⟩
    injection hc with hc
    subst hc
    dsimp only
    exact ⟨rfl, by omega⟩
  rw [if_neg h08]
  by_cases h09 : char_at src cur = ';'
  · rw [if_pos h09]
    refine ⟨_, rfl, fun s2 hc => ?_⟩
    injection hc with hc
    subst hc
    dsimp only
    exact ⟨rfl, by omega⟩
  rw [if_neg h09]
  by_cases h10 : char_at src cur = '*'
  · rw [if_pos h10]
    refine ⟨_, rfl, fun s2 hc => ?_⟩
    injection hc with hc
    subst hc
    dsimp only
    exact ⟨rfl, by omega⟩
  rw [if_neg h10]
  by_cases h11 : char_at src cur = '!'
  · rw [if_pos h11]
    by_cases hq11 : (⟨src, toks_, start, cur + 1, line⟩ : Scanner).peek = Char.ofNat 0 ∨
        (⟨src, toks_, start, cur + 1, line⟩ : Scanner).peek ≠ '='
    · rw [if_pos hq11]
      dsimp only
      refine ⟨_, rfl, fun s2 hc => ?_⟩
      injection hc with hc
      subst hc
      dsimp only
      exact ⟨rfl, by omega⟩
    · rw [if_neg hq11]
      dsimp only
      refine ⟨_, rfl, fun s2 hc => ?_⟩
      injection hc with hc
      subst hc
      dsimp only
      exact ⟨rfl, by omega⟩
  rw [if_neg h11]
  by_cases h12 : char_at src cur = '='
  · rw [if_pos h12]
    by_cases hq12 : (⟨src, toks_, start, cur + 1, line⟩ : Scanner).peek = Char.ofNat 0 ∨
        (⟨src, toks_, start, cur + 1, line⟩ : Scanner).peek ≠ '='
    · rw [if_pos hq12]
      dsimp only
      refine ⟨_, rfl, fun s2 hc => ?_⟩
      injection hc with hc
      subst hc
      dsimp only
      exact ⟨rfl, by omega⟩
    · rw [if_neg hq12]
      dsimp only
      refine ⟨_, rfl, fun s2 hc => ?_⟩
      injection hc with hc
      subst hc
      dsimp only
      exact ⟨rfl, by omega⟩
  rw [if_neg h12]
  by_cases h13 : char_at src cur = '<'
  · rw [if_pos h13]
    by_cases hq13 : (⟨src, toks_, start, cur + 1, line⟩ : Scanner).peek = Char.ofNat 0 ∨
        (⟨src, toks_, start, cur + 1, line⟩ : Scanner).peek ≠ '='
    · rw [if_pos hq13]
      dsimp only
      refine ⟨_, rfl, fun s2 hc => ?_⟩
      injection hc with hc
      subst hc
      dsimp only
      exact ⟨rfl, by omega⟩
    · rw [if_neg hq13]
      dsimp only
      refine ⟨_, rfl, fun s2 hc => ?_⟩
      injection hc with hc
      subst hc
      dsimp only
      exact ⟨rfl, by omega⟩
  rw [if_neg h13]
  by_cases h14 : char_at src cur = '>'
  · rw [if_pos h14]
    by_cases hq14 : (⟨src, toks_, start, cur + 1, line⟩ : Scanner).peek = Char.ofNat 0 ∨
        (⟨src, toks_, start, cur + 1, line⟩ : Scanner).peek ≠ '='
    · rw [if_pos hq14]
      dsimp only
      refine ⟨_, rfl, fun s2 hc => ?_⟩
      injection hc with hc
      subst hc
      dsimp only
      exact ⟨rfl, by omega⟩
    · rw [if_neg hq14]
      dsimp only
      refine ⟨_, rfl, fun s2 hc => ?_⟩
      injection hc with hc
      subst hc
      dsimp only
      exact ⟨rfl, by omega⟩
  rw [if_neg h14]
  by_cases h15 : char_at src cur = '/'
  · rw [if_pos h15]
    by_cases hq15 : (⟨src, toks_, start, cur + 1, line⟩ : Scanner).peek = Char.ofNat 0 ∨
        (⟨src, toks_, start, cur + 1, line⟩ : Scanner).peek ≠ '/'
    · rw [if_pos hq15]
      dsimp only
      rw [if_neg (show ¬(false = true) by decide)]
      by_cases hq15b : (⟨src, toks_, start, cur + 1, line⟩ : Scanner).peek = Char.ofNat 0 ∨
          (⟨src, toks_, start, cur + 1, line⟩ : Scanner).peek ≠ '*'
      · rw [if_pos hq15b]
        dsimp only
        rw [if_neg (show ¬(false = true) by decide)]
        refine ⟨_, rfl, fun s2 hc => ?_⟩
        injection hc with hc
        subst hc
        dsimp only
        exact ⟨rfl, by omega⟩
      · rw [if_neg hq15b]
        dsimp only
        rw [if_pos (show true = true from rfl)]
        rcases commentLoop_spec (str_len src + 2) 1 ⟨src, toks_, start, cur + 1 + 1, line⟩
            Nat.one_pos (by dsimp only; omega) with ⟨s2w, heq, e1, e2, e3, e4, e5⟩ | herr
        · rw [heq]
          refine ⟨_, rfl, fun s2 hc => ?_⟩
          injection hc with hc
          subst hc
          dsimp only at e5
          exact ⟨e1, by omega⟩
        · rw [herr]
          exact ⟨_, rfl, fun s2 hc => Except.noConfusion hc⟩
    · rw [if_neg hq15]
      dsimp only
      rw [if_pos (show true = true from rfl)]
      obtain ⟨s1, heq, e1, e2, e3, e4, e5⟩ := lineCommentLoop_some (str_len src + 2)
        ⟨src, toks_, start, cur + 1 + 1, line⟩ (by dsimp only; omega)
      rw [heq]
      dsimp only
      refine ⟨_, rfl, fun s2 hc => ?_⟩
      injection hc with hc
      subst hc
      dsimp only at e5
      exact ⟨e1, by omega⟩
  rw [if_neg h15]
  by_cases h16 : char_at src cur = ' ' ∨ char_at src cur = '\r' ∨ char_at src cur = '\t'
  · rw [if_pos h16]
    refine ⟨_, rfl, fun s2 hc => ?_⟩
    injection hc with hc
    subst hc
    dsimp only
    exact ⟨rfl, by omega⟩
  rw [if_neg h16]
  by_cases h17 : char_at src cur = '"'
  · rw [if_pos h17]
    obtain ⟨r, hr, hmono⟩ := read_string_spec ⟨src, toks_, start, cur + 1, line⟩
    rw [hr]
    refine ⟨_, rfl, fun s2 hc => ?_⟩
    obtain ⟨e1, e2⟩ := hmono s2 hc
    dsimp only at e2
    exact ⟨e1, by omega⟩
  rw [if_neg h17]
  by_cases h18 : char_at src cur = '\n'
  · rw [if_pos h18]
    refine ⟨_, rfl, fun s2 hc => ?_⟩
    injection hc with hc
    subst hc
    dsimp only
    exact ⟨rfl, by omega⟩
  rw [if_neg h18]
  by_cases h19 : is_digit (char_at src cur) = true
  · rw [if_pos h19]
    obtain ⟨s2n, hr, e1, e2⟩ := read_number_some ⟨src, toks_, start, cur + 1, line⟩
    rw [hr]
    refine ⟨_, rfl, fun s2 hc => ?_⟩
    injection hc with hc
    subst hc
    dsimp only at e2
    exact ⟨e1, by omega⟩
  rw [if_neg h19]
  by_cases h20 : is_alpha (char_at src cur) = true
  · rw [if_pos h20]
    obtain ⟨s2i, hr, e1, e2⟩ := read_identifier_spec ⟨src, toks_, start, cur + 1, line⟩
    rw [hr]
    refine ⟨_, rfl, fun s2 hc => ?_⟩
    injection hc with hc
    subst hc
    dsimp only at e2
    exact ⟨e1, by omega⟩
  rw [if_neg h20]
  exact ⟨_, rfl, fun s2 hc => Except.noConfusion hc⟩


/-! ## The driving loop -/

theorem scanLoop_some :
    ∀ (fuel : Nat) (st : Scanner), str_len st.source - st.current < fuel →
    ∃ r, scanLoop fuel st = some r := by
  intro fuel
  induction fuel with
  | zero => intro st h; omega
  | succ f ih =>
    intro st h
    simp only [scanLoop]
    by_cases hend : st.is_at_end = true
    · rw [if_pos hend]
      exact ⟨_, rfl⟩
    · rw [if_neg hend]
      have hlt := at_end_false_lt st (Bool.eq_false_iff.mpr hend)
      obtain ⟨r, hr, hmono⟩ := scan_token_spec { st with start := st.current }
      rw [hr]
      match r, hr, hmono with
      | .error e, hr, hmono => exact ⟨_, rfl⟩
      | .ok s2, hr, hmono =>
        obtain ⟨e1, e2⟩ := hmono s2 rfl
        refine ih s2 ?_
        rw [e1]
        dsimp only
        dsimp only at e2
        omega

theorem scan_tokens_isSome (st : Scanner) : (st.scan_tokens).isSome = true := by
  obtain ⟨r, hr⟩ := scanLoop_some (str_len st.source + 2) st (by omega)
  unfold Scanner.scan_tokens
  rw [hr]
  cases r with
  | error e => rfl
  | ok s2 => rfl


/-! ## Claim theorems -/

/-- Claim C1: the claim states that a balanced nested block comment
contributes zero tokens, and that the nested-comment example scans to
exactly one token (Eof).  The code disagrees: at the closing pair with
nesting depth above 1 the scanner decrements the counter without
consuming the two characters, so the first closing pair terminates the
whole comment and the tail ` c ` followed by star and slash is scanned
as ordinary input.  This theorem evaluates the scanner at the claim's
own example: the result is Identifier("c"), Star, Slash, Eof — four
tokens, not one. -/
theorem claim_C1 :
    scanSource "/* a /* b */ c */".data =
      some (.ok [⟨TokenType.Identifier, ['c'], ['c'], 1⟩,
        ⟨TokenType.Star, ['*'], [], 1⟩,
        ⟨TokenType.Slash, ['/'], [], 1⟩,
        ⟨TokenType.Eof, [], [], 1⟩]) ∧
    ∀ (ts : List Token), scanSource "/* a /* b */ c */".data = some (.ok ts) →
      ts.length = 4 := by
  constructor
  · rfl
  · intro ts h
    have h2 : scanSource "/* a /* b */ c */".data =
        some (Except.ok [⟨TokenType.Identifier, ['c'], ['c'], 1⟩,
          ⟨TokenType.Star, ['*'], [], 1⟩,
          ⟨TokenType.Slash, ['/'], [], 1⟩,
          ⟨TokenType.Eof, [], [], 1⟩]) := rfl
    rw [h] at h2
    injection h2 with h2
    injection h2 with h2
    subst h2
    rfl

/-- Claim C5: the claim states that any input whose block-comment
nesting depth never returns to zero fails with `UnbalancedComment`.
The code disagrees on the input consisting of two comment openers and a
single closer: the inner opener raises the nesting counter to 2, but at
the single closing pair the scanner decrements without consuming and
then, one iteration later at the same two characters, closes the whole
comment; the scan succeeds with just the Eof token instead of failing. -/
theorem claim_C5 :
    scanSource "/* /* a */".data = some (.ok [⟨TokenType.Eof, [], [], 1⟩]) ∧
    ∀ (e : Error), scanSource "/* /* a */".data ≠ some (.error e) := by
  constructor
  · rfl
  · intro e h
    have h2 : scanSource "/* /* a */".data =
        some (Except.ok [(⟨TokenType.Eof, [], [], 1⟩ : Token)]) := rfl
    rw [h] at h2
    exact Except.noConfusion (Option.some.inj h2)

/-- Claim C3: scanning is fail-fast.  First conjunct: whenever the
cursor is not at the end and scanning the next token produces an error,
the driving loop returns exactly that error immediately — no further
scanning, no token list.  Second conjunct: an error result and a token
list result are mutually exclusive, so the error value alone is
returned. -/
theorem claim_C3 :
    (∀ (fuel : Nat) (st : Scanner) (e : Error),
      st.is_at_end = false →
      Scanner.scan_token { st with start := st.current } = some (.error e) →
      scanLoop (fuel + 1) st = some (.error e)) ∧
    (∀ (source : List Char) (e : Error) (ts : List Token),
      scanSource source = some (.error e) → scanSource source ≠ some (.ok ts)) := by
  constructor
  · intro fuel st e h1 h2
    simp only [scanLoop]
    rw [if_neg (by rw [h1]; exact Bool.noConfusion), h2]
  · intro source e ts h1 h2
    rw [h1] at h2
    exact Except.noConfusion (Option.some.inj h2)

/-- Witness for C3 at a concrete input: the single-character source
consisting of a dollar sign faults immediately and the loop returns the
`UnexpectedCharacter` error alone. -/
theorem claim_C3_witness :
    scanLoop 1 (Scanner.new "$".data) =
      some (.error ⟨"Unexpected character.".data, [], 1⟩) :=
  claim_C3.1 0 (Scanner.new "$".data) ⟨"Unexpected character.".data, [], 1⟩ rfl rfl

/-- Counterexample to Claim C2 as stated: scanning a block comment with
one embedded newline consumes that newline, so the claim predicts a
final line of 1 + 1 = 2, but the scan succeeds with the Eof token still
on line 1 — newlines consumed inside block comments do not increment
the counter. -/
theorem claim_C2_counterexample :
    scanSource "/*\n*/".data = some (.ok [⟨TokenType.Eof, [], [], 1⟩]) ∧
    (1 : Nat) ≠ 1 + ("/*\n*/".data.count '\n') := by
  constructor
  · rfl
  · decide

/-- Claim C10: `scan_tokens` terminates on every finite input.  The
loops are embedded with explicit fuel `str_len source + 2`; this theorem
shows that fuel is always sufficient (the fuel marker `none` is never
returned), because every successful `scan_token` strictly advances the
cursor and the block-comment loop decreases cursor-remainder plus
nesting at every iteration. -/
theorem claim_C10 :
    (∀ (st : Scanner), (st.scan_tokens).isSome = true) ∧
    (∀ (source : List Char), (scanSource source).isSome = true) :=
  ⟨scan_tokens_isSome, fun source => scan_tokens_isSome (Scanner.new source)⟩

/-! ## Line bookkeeping lemmas for C2 -/

theorem commentLoop_line : ∀ (fuel nesting : Nat) (st : Scanner),
    (∀ st2, commentLoop fuel nesting st = some (.ok st2) → st2.line = st.line) ∧
    (∀ e, commentLoop fuel nesting st = some (.error e) → e.line = st.line) := by
  intro fuel
  induction fuel with
  | zero =>
    intro nesting st
    exact ⟨fun st2 h => Option.noConfusion h, fun e h => Option.noConfusion h⟩
  | succ f ih =>
    intro nesting st
    constructor
    · intro st2 h
      simp only [commentLoop] at h
      split at h
      · exact Except.noConfusion (Option.some.inj h)
      · split at h
        · exact (ih (nesting + 1) (((st.advance).2.advance).2)).1 st2 h
        · split at h
          · split at h
            · have h2 := Except.ok.inj (Option.some.inj h)
              subst h2
              rfl
            · exact (ih (nesting - 1) _).1 st2 h
          · exact (ih nesting ((st.advance).2)).1 st2 h
    · intro e h
      simp only [commentLoop] at h
      split at h
      · have h2 := Except.error.inj (Option.some.inj h)
        subst h2
        rfl
      · split at h
        · exact (ih (nesting + 1) (((st.advance).2.advance).2)).2 e h
        · split at h
          · split at h
            · exact Except.noConfusion (Option.some.inj h)
            · exact (ih (nesting - 1) _).2 e h
          · exact (ih nesting ((st.advance).2)).2 e h

theorem scan_token_newline (src : List Char) (toks_ : List Token)
    (start cur line : Nat) (hchar : char_at src cur = '\n') :
    Scanner.scan_token ⟨src, toks_, start, cur, line⟩ =
      some (.ok ⟨src, toks_, start, cur + 1, line + 1⟩) := by
  unfold Scanner.scan_token
  dsimp only [Scanner.advance]
  rw [hchar]
  simp

/-- Claim C2, amended: the line counter is incremented exactly once per
newline consumed at dispatch level (first conjunct) and once per newline
consumed inside a string literal (fourth conjunct), while the
block-comment loop consumes newlines without ever changing the line
counter — neither on success (second conjunct) nor on the error path
(third conjunct).  Hence the final line is 1 plus the number of newlines
consumed outside block comments, not 1 plus all newlines consumed. -/
theorem claim_C2 :
    (∀ (src : List Char) (toks_ : List Token) (start cur line : Nat),
      char_at src cur = '\n' →
      Scanner.scan_token ⟨src, toks_, start, cur, line⟩ =
        some (.ok ⟨src, toks_, start, cur + 1, line + 1⟩)) ∧
    (∀ (fuel nesting : Nat) (st st2 : Scanner),
      commentLoop fuel nesting st = some (.ok st2) → st2.line = st.line) ∧
    (∀ (fuel nesting : Nat) (st : Scanner) (e : Error),
      commentLoop fuel nesting st = some (.error e) → e.line = st.line) ∧
    (∀ (body : List Char) (fuel : Nat) (src : List Char) (toks_ : List Token)
      (start cur line : Nat) (rest : List Char),
      src.drop cur = body ++ '"' :: rest → '"' ∉ body → body.length < fuel →
      stringLoop fuel ⟨src, toks_, start, cur, line⟩ =
        some ⟨src, toks_, start, cur + body.length, line + body.count '\n'⟩) :=
  ⟨fun src toks_ start cur line h => scan_token_newline src toks_ start cur line h,
   fun fuel nesting st st2 h => (commentLoop_line fuel nesting st).1 st2 h,
   fun fuel nesting st e h => (commentLoop_line fuel nesting st).2 e h,
   fun body => stringLoop_body body⟩

/-- Witness for C2 at concrete inputs: a dispatch newline bumps the line
from 7 to 8; a block comment containing a newline is scanned to
completion with the line left at 1; an unterminated comment reports the
entry line 9 unchanged; and the string body with one newline adds
exactly one line. -/
theorem claim_C2_witness :
    Scanner.scan_token ⟨['\n'], [], 0, 0, 7⟩ =
      some (.ok ⟨['\n'], [], 0, 1, 8⟩) ∧
    (⟨"/*\n*/".data, [], 0, 5, 1⟩ : Scanner).line =
      (⟨"/*\n*/".data, [], 0, 2, 1⟩ : Scanner).line ∧
    (⟨"Unbalanced block comment: missing closing */".data, [], 9⟩ : Error).line =
      (⟨"/*".data, [], 0, 2, 9⟩ : Scanner).line ∧
    stringLoop 9 ⟨"\"a\nb\"".data, [], 0, 1, 1⟩ =
      some ⟨"\"a\nb\"".data, [], 0, 1 + "a\nb".data.length, 1 + "a\nb".data.count '\n'⟩ :=
  ⟨claim_C2.1 ['\n'] [] 0 0 7 rfl,
   claim_C2.2.1 7 1 ⟨"/*\n*/".data, [], 0, 2, 1⟩ ⟨"/*\n*/".data, [], 0, 5, 1⟩ rfl,
   claim_C2.2.2.1 3 1 ⟨"/*".data, [], 0, 2, 9⟩
     ⟨"Unbalanced block comment: missing closing */".data, [], 9⟩ rfl,
   claim_C2.2.2.2 "a\nb".data 9 "\"a\nb\"".data [] 0 1 1 [] (by decide) (by decide)
     (by decide)⟩

/-- Claim C4: string literals.  First conjunct: entered on an opening
quote whose body (quote-free) is closed by a quote, `read_string` emits
one String token whose literal is exactly the text strictly between the
quotes, whose lexeme includes both quotes, and the line counter (and the
token's line) advance by exactly the number of newlines in the body.
Second conjunct: if no closing quote remains, `read_string` fails with
`UnterminatedString` carrying the line reached after counting the
remaining newlines. -/
theorem claim_C4 :
    (∀ (st : Scanner) (body rest : List Char),
      st.source.drop st.start = '"' :: (body ++ '"' :: rest) →
      st.current = st.start + 1 →
      '"' ∉ body →
      st.read_string = some (.ok ⟨st.source,
        st.tokens ++ [⟨TokenType.String, '"' :: (body ++ ['"']), body,
          st.line + body.count '\n'⟩],
        st.start, st.start + body.length + 2, st.line + body.count '\n'⟩)) ∧
    (∀ (st : Scanner), '"' ∉ st.source.drop st.current →
      st.read_string = some (.error ⟨"Unterminated string".data, [],
        st.line + (st.source.drop st.current).count '\n'⟩)) := by
  constructor
  · intro st body rest h1 h2 h3
    obtain ⟨src, toks_, start, cur, line⟩ := st
    dsimp only at h1 h2 ⊢
    subst h2
    exact read_string_terminated src toks_ start line body rest h1 h3
  · exact read_string_unterminated

/-- Witness for C4 at concrete inputs: the two-line string literal with
body containing one newline produces a String token with that exact
body and ends on line 2; an opening quote with no closing quote fails
with `UnterminatedString` at the entry line 3. -/
theorem claim_C4_witness :
    Scanner.read_string ⟨"\"a\nb\"".data, [], 0, 1, 1⟩ =
      some (.ok ⟨"\"a\nb\"".data,
        [⟨TokenType.String, "\"a\nb\"".data, "a\nb".data, 2⟩], 0, 5, 2⟩) ∧
    Scanner.read_string ⟨"\"ab".data, [], 0, 1, 3⟩ =
      some (.error ⟨"Unterminated string".data, [], 3⟩) :=
  ⟨claim_C4.1 ⟨"\"a\nb\"".data, [], 0, 1, 1⟩ "a\nb".data [] (by decide) rfl (by decide),
   claim_C4.2 ⟨"\"ab".data, [], 0, 1, 3⟩ (by decide)⟩

/-- Claim C8: two-character operators use one-step-lookahead maximal
munch.  First conjunct: a less-than sign followed by any non-equals
code point emits a one-character Less token and consumes only the
less-than sign.  Second and third conjuncts: the sources consisting of
less-equals and equals-equals each scan to the single two-character
token (LessEqual resp. EqualEqual) plus Eof — never two one-character
tokens. -/
theorem claim_C8 :
    (∀ (st : Scanner) (c : Char) (rest : List Char),
      st.source.drop st.current = '<' :: c :: rest →
      st.start = st.current →
      c ≠ '=' →
      st.scan_token = some (.ok ⟨st.source,
        st.tokens ++ [⟨TokenType.Less, ['<'], [], st.line⟩],
        st.start, st.current + 1, st.line⟩)) ∧
    scanSource "<=".data = some (.ok [⟨TokenType.LessEqual, "<=".data, [], 1⟩,
      ⟨TokenType.Eof, [], [], 1⟩]) ∧
    scanSource "==".data = some (.ok [⟨TokenType.EqualEqual, "==".data, [], 1⟩,
      ⟨TokenType.Eof, [], [], 1⟩]) := by
  refine ⟨?_, rfl, rfl⟩
  intro st c rest h1 h2 h3
  obtain ⟨src, toks_, start, cur, line⟩ := st
  dsimp only at h1 h2 ⊢
  subst h2
  obtain ⟨hd1, hlt, hat⟩ := drop_cons_facts src start '<' (c :: rest) h1
  have hp : (⟨src, toks_, start, start + 1, line⟩ : Scanner).peek = c :=
    (peek_of_drop _ c rest hd1).1
  unfold Scanner.scan_token
  dsimp only [Scanner.advance, Scanner.advance_if_equal, Scanner.add_token,
    Scanner.add_token_literal]
  rw [hat]
  rw [if_neg (show ¬(('<' : Char) = '(') by decide),
      if_neg (show ¬(('<' : Char) = ')') by decide),
      if_neg (show ¬(('<' : Char) = '{') by decide),
      if_neg (show ¬(('<' : Char) = '}') by decide),
      if_neg (show ¬(('<' : Char) = ',') by decide),
      if_neg (show ¬(('<' : Char) = '.') by decide),
      if_neg (show ¬(('<' : Char) = '-') by decide),
      if_neg (show ¬(('<' : Char) = '+') by decide),
      if_neg (show ¬(('<' : Char) = ';') by decide),
      if_neg (show ¬(('<' : Char) = '*') by decide),
      if_neg (show ¬(('<' : Char) = '!') by decide),
      if_neg (show ¬(('<' : Char) = '=') by decide),
      if_pos (show ('<' : Char) = '<' from rfl)]
  rw [if_pos (Or.inr (show (⟨src, toks_, start, start + 1, line⟩ : Scanner).peek ≠ '=' from by
    rw [hp]; exact h3))]
  dsimp only
  rw [if_neg (show ¬(false = true) by decide)]
  have hsub : substring src start (start + 1) = ['<'] := by
    rw [substring_eq src start (start + 1) (by omega),
      show start + 1 - start = 1 by omega, h1]
    rfl
  rw [hsub]

/-- Witness for C8 at a concrete input: a less-than sign followed by a
letter scans to a one-character Less token at cursor 1. -/
theorem claim_C8_witness :
    Scanner.scan_token ⟨"<a".data, [], 0, 0, 1⟩ =
      some (.ok ⟨"<a".data, [⟨TokenType.Less, ['<'], [], 1⟩], 0, 1, 1⟩) :=
  claim_C8.1 ⟨"<a".data, [], 0, 0, 1⟩ 'a' [] (by decide) rfl (by decide)

/-- Claim C9: dispatch raises `UnexpectedCharacter` exactly on
unmatched code points.  First conjunct: when the code point at the
cursor is alphabetic or an underscore, `scan_token` enters the
identifier scan and succeeds.  Second conjunct: a code point equal to
none of the twenty dispatch characters and neither a digit nor
alphabetic makes `scan_token` fail with `UnexpectedCharacter` at the
current line. -/
theorem claim_C9 :
    (∀ (st : Scanner), is_alpha (char_at st.source st.current) = true →
      ∃ s2, st.scan_token = some (.ok s2)) ∧
    (∀ (st : Scanner) (c : Char), char_at st.source st.current = c →
      c ≠ '(' → c ≠ ')' → c ≠ '{' → c ≠ '}' → c ≠ ',' → c ≠ '.' → c ≠ '-' →
      c ≠ '+' → c ≠ ';' → c ≠ '*' → c ≠ '!' → c ≠ '=' → c ≠ '<' → c ≠ '>' →
      c ≠ '/' → c ≠ ' ' → c ≠ '\r' → c ≠ '\t' → c ≠ '"' → c ≠ '\n' →
      is_digit c = false → is_alpha c = false →
      st.scan_token = some (.error ⟨"Unexpected character.".data, [], st.line⟩)) := by
  constructor
  · intro st hc
    obtain ⟨src, toks_, start, cur, line⟩ := st
    dsimp only at hc
    unfold Scanner.scan_token
    dsimp only [Scanner.advance, Scanner.advance_if_equal, Scanner.add_token,
      Scanner.add_token_literal]
    rw [if_neg (alpha_ne _ '(' hc (by decide)),
        if_neg (alpha_ne _ ')' hc (by decide)),
        if_neg (alpha_ne _ '{' hc (by decide)),
        if_neg (alpha_ne _ '}' hc (by decide)),
        if_neg (alpha_ne _ ',' hc (by decide)),
        if_neg (alpha_ne _ '.' hc (by decide)),
        if_neg (alpha_ne _ '-' hc (by decide)),
        if_neg (alpha_ne _ '+' hc (by decide)),
        if_neg (alpha_ne _ ';' hc (by decide)),
        if_neg (alpha_ne _ '*' hc (by decide)),
        if_neg (alpha_ne _ '!' hc (by decide)),
        if_neg (alpha_ne _ '=' hc (by decide)),
        if_neg (alpha_ne _ '<' hc (by decide)),
        if_neg (alpha_ne _ '>' hc (by decide)),
        if_neg (alpha_ne _ '/' hc (by decide)),
        if_neg (show ¬(char_at src cur = ' ' ∨ char_at src cur = '\r' ∨
            char_at src cur = '\t') from fun hor =>
          hor.elim (alpha_ne _ ' ' hc (by decide))
            (fun hor2 => hor2.elim (alpha_ne _ '\r' hc (by decide))
              (alpha_ne _ '\t' hc (by decide)))),
        if_neg (alpha_ne _ '"' hc (by decide)),
        if_neg (alpha_ne _ '\n' hc (by decide)),
        if_neg (show ¬(is_digit (char_at src cur) = true) from by
          rw [alpha_not_digit _ hc]; exact Bool.noConfusion),
        if_pos hc]
    obtain ⟨s2, hr, e1, e2⟩ := read_identifier_spec ⟨src, toks_, start, cur + 1, line⟩
    exact ⟨s2, hr⟩
  · intro st c hchar h01 h02 h03 h04 h05 h06 h07 h08 h09 h10 h11 h12 h13 h14 h15
      h16 h17 h18 h19 h20 hdig halp
    obtain ⟨src, toks_, start, cur, line⟩ := st
    dsimp only at hchar ⊢
    unfold Scanner.scan_token
    dsimp only [Scanner.advance, Scanner.advance_if_equal, Scanner.add_token,
      Scanner.add_token_literal]
    rw [hchar]
    rw [if_neg h01, if_neg h02, if_neg h03, if_neg h04, if_neg h05, if_neg h06,
        if_neg h07, if_neg h08, if_neg h09, if_neg h10, if_neg h11, if_neg h12,
        if_neg h13, if_neg h14, if_neg h15,
        if_neg (show ¬(c = ' ' ∨ c = '\r' ∨ c = '\t') from fun hor =>
          hor.elim h16 (fun hor2 => hor2.elim h17 h18)),
        if_neg h19, if_neg h20,
        if_neg (show ¬(is_digit c = true) from by rw [hdig]; exact Bool.noConfusion),
        if_neg (show ¬(is_alpha c = true) from by rw [halp]; exact Bool.noConfusion)]

/-- Witness for C9 at concrete inputs: a letter enters the identifier
scan and succeeds; a dollar sign matches no dispatch case and fails
with `UnexpectedCharacter` at line 1. -/
theorem claim_C9_witness :
    (∃ s2, Scanner.scan_token ⟨['x'], [], 0, 0, 1⟩ = some (.ok s2)) ∧
    Scanner.scan_token ⟨['$'], [], 0, 0, 1⟩ =
      some (.error ⟨"Unexpected character.".data, [], 1⟩) :=
  ⟨claim_C9.1 ⟨['x'], [], 0, 0, 1⟩ (by decide),
   claim_C9.2 ⟨['$'], [], 0, 0, 1⟩ '$' rfl (by decide) (by decide) (by decide)
     (by decide) (by decide) (by decide) (by decide) (by decide) (by decide)
     (by decide) (by decide) (by decide) (by decide) (by decide) (by decide)
     (by decide) (by decide) (by decide) (by decide) (by decide) (by decide)
     (by decide)⟩

/-! ## `read_number` exact-value lemmas for C6 -/

theorem read_number_int (src : List Char) (toks_ : List Token) (start line : Nat)
    (d : Char) (ds rest : List Char)
    (hd : src.drop start = (d :: ds) ++ rest)
    (hdig : ∀ c ∈ d :: ds, is_digit c = true)
    (hrest : ∀ c, rest.head? = some c → is_digit c = false)
    (hnofrac : ∀ e2 r2, rest = '.' :: e2 :: r2 → is_digit e2 = false) :
    Scanner.read_number ⟨src, toks_, start, start + 1, line⟩ =
      some (.ok ⟨src, toks_ ++ [⟨TokenType.Number, d :: ds, d :: ds, line⟩],
        start, start + 1 + ds.length, line⟩) := by
  rw [List.cons_append] at hd
  obtain ⟨hd1, hlt, -⟩ := drop_cons_facts src start d (ds ++ rest) hd
  have hlen1 : src.length - (start + 1) = ds.length + rest.length := by
    have h := congrArg List.length hd1
    rw [List.length_drop] at h
    simp only [List.length_append] at h
    omega
  have hfuel : ds.length < str_len src + 2 := by unfold str_len; omega
  have hdrop2 : src.drop (start + 1 + ds.length) = rest := by
    rw [← List.drop_drop ds.length (start + 1) src, hd1, List.drop_left]
  have hfr : ¬((⟨src, toks_, start, start + 1 + ds.length, line⟩ : Scanner).peek = '.' ∧
      is_digit (⟨src, toks_, start, start + 1 + ds.length, line⟩ : Scanner).peek_next = true) := by
    rintro ⟨hp, hn⟩
    cases hrc : rest with
    | nil =>
      rw [hrc] at hdrop2
      rw [peek_of_nil _ hdrop2] at hp
      exact absurd hp (by decide)
    | cons r rs =>
      rw [hrc] at hdrop2
      rw [(peek_of_drop _ r rs hdrop2).1] at hp
      subst hp
      cases hrs : rs with
      | nil =>
        rw [hrs] at hdrop2
        obtain ⟨hdd, -, -⟩ := drop_cons_facts src (start + 1 + ds.length) '.' [] hdrop2
        rw [peek_next_of_short _ (by dsimp only; exact drop_nil_at_end src _ hdd)] at hn
        exact absurd hn (by decide)
      | cons r2 rs2 =>
        rw [hrs] at hdrop2
        rw [peek_next_of_drop _ '.' r2 rs2 hdrop2] at hn
        rw [hnofrac r2 rs2 (by rw [hrc, hrs])] at hn
        exact Bool.noConfusion hn
  unfold Scanner.read_number
  dsimp only
  rw [skipDigits_run ds (str_len src + 2) src toks_ start (start + 1) line rest hd1
    (fun c hc => hdig c (List.mem_cons_of_mem d hc)) hrest hfuel]
  dsimp only
  rw [if_neg hfr]
  dsimp only [Scanner.add_token_literal]
  have hsub : substring src start (start + 1 + ds.length) = d :: ds := by
    rw [substring_eq src start _ (by omega),
      show start + 1 + ds.length - start = ds.length + 1 by omega, hd,
      ← List.cons_append,
      show ds.length + 1 = (d :: ds).length from (List.length_cons d ds).symm,
      List.take_left]
  rw [hsub]

theorem read_number_frac (src : List Char) (toks_ : List Token) (start line : Nat)
    (d e2c : Char) (ds ds2 rest2 : List Char)
    (hd : src.drop start = (d :: ds) ++ '.' :: (e2c :: ds2) ++ rest2)
    (hdig : ∀ c ∈ d :: ds, is_digit c = true)
    (hdig2 : ∀ c ∈ e2c :: ds2, is_digit c = true)
    (hrest : ∀ c, rest2.head? = some c → is_digit c = false) :
    Scanner.read_number ⟨src, toks_, start, start + 1, line⟩ =
      some (.ok ⟨src, toks_ ++ [⟨TokenType.Number,
        (d :: ds) ++ '.' :: e2c :: ds2, (d :: ds) ++ '.' :: e2c :: ds2, line⟩],
        start, start + 1 + ds.length + 1 + (ds2.length + 1), line⟩) := by
  have hd9 : src.drop start = d :: (ds ++ '.' :: ((e2c :: ds2) ++ rest2)) := by
    rw [hd]
    simp
  obtain ⟨hd1, hlt, -⟩ :=
    drop_cons_facts src start d (ds ++ '.' :: ((e2c :: ds2) ++ rest2)) hd9
  have hlen1 := congrArg List.length hd1
  rw [List.length_drop] at hlen1
  simp only [List.length_append, List.length_cons] at hlen1
  have hfuel : ds.length < str_len src + 2 := by unfold str_len; omega
  have hdrop2 : src.drop (start + 1 + ds.length) = '.' :: ((e2c :: ds2) ++ rest2) := by
    rw [← List.drop_drop ds.length (start + 1) src, hd1, List.drop_left]
  obtain ⟨hdrop3, hlt3, -⟩ :=
    drop_cons_facts src (start + 1 + ds.length) '.' ((e2c :: ds2) ++ rest2) hdrop2
  have hp : (⟨src, toks_, start, start + 1 + ds.length, line⟩ : Scanner).peek = '.' :=
    (peek_of_drop _ '.' _ hdrop2).1
  have hn : (⟨src, toks_, start, start + 1 + ds.length, line⟩ : Scanner).peek_next = e2c :=
    peek_next_of_drop _ '.' e2c (ds2 ++ rest2) (by rw [hdrop2, List.cons_append])
  have hfuel2 : (e2c :: ds2).length < str_len src + 2 := by
    simp only [List.length_cons]
    unfold str_len
    omega
  unfold Scanner.read_number
  dsimp only
  rw [skipDigits_run ds (str_len src + 2) src toks_ start (start + 1) line
    ('.' :: ((e2c :: ds2) ++ rest2)) hd1
    (fun c hc => hdig c (List.mem_cons_of_mem d hc))
    (fun c hc => by
      injection hc with hc
      subst hc
      decide) hfuel]
  dsimp only
  rw [if_pos ⟨hp, by rw [hn]; exact hdig2 e2c (List.mem_cons_self e2c ds2)⟩]
  dsimp only [Scanner.advance]
  rw [skipDigits_run (e2c :: ds2) (str_len src + 2) src toks_ start
    (start + 1 + ds.length + 1) line rest2 hdrop3 hdig2 hrest hfuel2]
  dsimp only
  have hsub : substring src start (start + 1 + ds.length + 1 + (e2c :: ds2).length) =
      (d :: ds) ++ '.' :: e2c :: ds2 := by
    have hdY : src.drop start = ((d :: ds) ++ '.' :: e2c :: ds2) ++ rest2 := by
      rw [hd9]
      simp
    rw [substring_eq src start _ (by omega),
      show start + 1 + ds.length + 1 + (e2c :: ds2).length - start =
        ((d :: ds) ++ '.' :: e2c :: ds2).length from by
          simp only [List.length_append, List.length_cons]
          omega,
      hdY, List.take_left]
  dsimp only [Scanner.add_token_literal]
  rw [hsub]
  simp only [Option.some.injEq, Except.ok.injEq, Scanner.mk.injEq,
    eq_self_iff_true, true_and, and_true, List.length_cons]

/-! ## `read_identifier` exact-value lemmas for C7 -/

theorem keywords_ne_id (w : List Char) (t : TokenType) (h : keywords w = some t) :
    ¬(t = TokenType.Identifier) := by
  unfold keywords at h
  by_cases h01 : w = "and".data
  · rw [if_pos h01] at h
    injection h with h
    subst h
    decide
  rw [if_neg h01] at h
  by_cases h02 : w = "or".data
  · rw [if_pos h02] at h
    injection h with h
    subst h
    decide
  rw [if_neg h02] at h
  by_cases h03 : w = "if".data
  · rw [if_pos h03] at h
    injection h with h
    subst h
    decide
  rw [if_neg h03] at h
  by_cases h04 : w = "else".data
  · rw [if_pos h04] at h
    injection h with h
    subst h
    decide
  rw [if_neg h04] at h
  by_cases h05 : w = "for".data
  · rw [if_pos h05] at h
    injection h with h
    subst h
    decide
  rw [if_neg h05] at h
  by_cases h06 : w = "while".data
  · rw [if_pos h06] at h
    injection h with h
    subst h
    decide
  rw [if_neg h06] at h
  by_cases h07 : w = "var".data
  · rw [if_pos h07] at h
    injection h with h
    subst h
    decide
  rw [if_neg h07] at h
  by_cases h08 : w = "class".data
  · rw [if_pos h08] at h
    injection h with h
    subst h
    decide
  rw [if_neg h08] at h
  by_cases h09 : w = "fun".data
  · rw [if_pos h09] at h
    injection h with h
    subst h
    decide
  rw [if_neg h09] at h
  by_cases h10 : w = "return".data
  · rw [if_pos h10] at h
    injection h with h
    subst h
    decide
  rw [if_neg h10] at h
  by_cases h11 : w = "print".data
  · rw [if_pos h11] at h
    injection h with h
    subst h
    decide
  rw [if_neg h11] at h
  by_cases h12 : w = "super".data
  · rw [if_pos h12] at h
    injection h with h
    subst h
    decide
  rw [if_neg h12] at h
  by_cases h13 : w = "this".data
  · rw [if_pos h13] at h
    injection h with h
    subst h
    decide
  rw [if_neg h13] at h
  by_cases h14 : w = "true".data
  · rw [if_pos h14] at h
    injection h with h
    subst h
    decide
  rw [if_neg h14] at h
  by_cases h15 : w = "false".data
  · rw [if_pos h15] at h
    injection h with h
    subst h
    decide
  rw [if_neg h15] at h
  by_cases h16 : w = "nil".data
  · rw [if_pos h16] at h
    injection h with h
    subst h
    decide
  rw [if_neg h16] at h
  exact Option.noConfusion h

theorem read_identifier_reduced (src : List Char) (toks_ : List Token)
    (start line : Nat) (a : Char) (w rest : List Char)
    (hd : src.drop start = (a :: w) ++ rest)
    (hal : ∀ c ∈ a :: w, is_alphanumeric c = true)
    (hrest : ∀ c, rest.head? = some c → is_alphanumeric c = false) :
    Scanner.read_identifier ⟨src, toks_, start, start + 1, line⟩ =
      (if (match keywords (a :: w) with
          | some t => t
          | none => TokenType.Identifier) = TokenType.Identifier
       then some (.ok ⟨src, toks_ ++ [⟨(match keywords (a :: w) with
          | some t => t
          | none => TokenType.Identifier), a :: w, a :: w, line⟩],
         start, start + 1 + w.length, line⟩)
       else some (.ok ⟨src, toks_ ++ [⟨(match keywords (a :: w) with
          | some t => t
          | none => TokenType.Identifier), a :: w, [], line⟩],
         start, start + 1 + w.length, line⟩)) := by
  rw [List.cons_append] at hd
  obtain ⟨hd1, hlt, -⟩ := drop_cons_facts src start a (w ++ rest) hd
  have hlen1 : src.length - (start + 1) = w.length + rest.length := by
    have h := congrArg List.length hd1
    rw [List.length_drop] at h
    simp only [List.length_append] at h
    omega
  have hfuel : w.length < str_len src + 2 := by unfold str_len; omega
  unfold Scanner.read_identifier
  dsimp only
  rw [skipAlnum_run w (str_len src + 2) src toks_ start (start + 1) line rest hd1
    (fun c hc => hal c (List.mem_cons_of_mem a hc)) hrest hfuel]
  dsimp only [Scanner.add_token, Scanner.add_token_literal]
  have hsub : substring src start (start + 1 + w.length) = a :: w := by
    rw [substring_eq src start _ (by omega),
      show start + 1 + w.length - start = w.length + 1 by omega, hd,
      ← List.cons_append,
      show w.length + 1 = (a :: w).length from (List.length_cons a w).symm,
      List.take_left]
  rw [hsub]

/-- Claim C6: the number sub-scanner consumes a maximal digit run and a
fractional part only when a dot is followed by a digit, and the Number
token's literal equals the exact matched text.  First conjunct: a digit
run not followed by a dot-digit pair emits Number with literal exactly
the run.  Second conjunct: a digit run followed by a dot and another
digit run emits Number with literal the full decimal text.  Third
conjunct: the source consisting of one-zero-dot scans to Number("10")
followed by Dot, then Eof — the trailing bare dot is not part of the
number. -/
theorem claim_C6 :
    (∀ (st : Scanner) (d : Char) (ds rest : List Char),
      st.source.drop st.start = (d :: ds) ++ rest →
      st.current = st.start + 1 →
      (∀ c ∈ d :: ds, is_digit c = true) →
      (∀ c, rest.head? = some c → is_digit c = false) →
      (∀ e2 r2, rest = '.' :: e2 :: r2 → is_digit e2 = false) →
      st.read_number = some (.ok ⟨st.source,
        st.tokens ++ [⟨TokenType.Number, d :: ds, d :: ds, st.line⟩],
        st.start, st.start + 1 + ds.length, st.line⟩)) ∧
    (∀ (st : Scanner) (d e2c : Char) (ds ds2 rest2 : List Char),
      st.source.drop st.start = (d :: ds) ++ '.' :: (e2c :: ds2) ++ rest2 →
      st.current = st.start + 1 →
      (∀ c ∈ d :: ds, is_digit c = true) →
      (∀ c ∈ e2c :: ds2, is_digit c = true) →
      (∀ c, rest2.head? = some c → is_digit c = false) →
      st.read_number = some (.ok ⟨st.source,
        st.tokens ++ [⟨TokenType.Number, (d :: ds) ++ '.' :: e2c :: ds2,
          (d :: ds) ++ '.' :: e2c :: ds2, st.line⟩],
        st.start, st.start + 1 + ds.length + 1 + (ds2.length + 1), st.line⟩)) ∧
    scanSource "10.".data = some (.ok [⟨TokenType.Number, "10".data, "10".data, 1⟩,
      ⟨TokenType.Dot, ".".data, [], 1⟩, ⟨TokenType.Eof, [], [], 1⟩]) := by
  refine ⟨?_, ?_, rfl⟩
  · intro st d ds rest h1 h2 h3 h4 h5
    obtain ⟨src, toks_, start, cur, line⟩ := st
    dsimp only at h1 h2 ⊢
    subst h2
    exact read_number_int src toks_ start line d ds rest h1 h3 h4 h5
  · intro st d e2c ds ds2 rest2 h1 h2 h3 h4 h5
    obtain ⟨src, toks_, start, cur, line⟩ := st
    dsimp only at h1 h2 ⊢
    subst h2
    exact read_number_frac src toks_ start line d e2c ds ds2 rest2 h1 h3 h4 h5

/-- Witness for C6 at concrete inputs: on source one-zero-dot the number
scan stops before the bare dot, emitting Number("10") with the cursor at
2; on source three-dot-five the fractional branch is taken, emitting
Number("3.5"). -/
theorem claim_C6_witness :
    Scanner.read_number ⟨"10.".data, [], 0, 1, 1⟩ =
      some (.ok ⟨"10.".data, [⟨TokenType.Number, "10".data, "10".data, 1⟩],
        0, 2, 1⟩) ∧
    Scanner.read_number ⟨"3.5".data, [], 0, 1, 1⟩ =
      some (.ok ⟨"3.5".data, [⟨TokenType.Number, "3.5".data, "3.5".data, 1⟩],
        0, 3, 1⟩) :=
  ⟨claim_C6.1 ⟨"10.".data, [], 0, 1, 1⟩ '1' ['0'] ['.'] (by decide) rfl
      (by decide)
      (by
        intro c hc
        injection hc with hc
        subst hc
        decide)
      (by
        intro e2 r2 h
        simp at h),
   claim_C6.2.1 ⟨"3.5".data, [], 0, 1, 1⟩ '3' '5' [] [] [] (by decide) rfl
      (by decide) (by decide)
      (by
        intro c hc
        exact Option.noConfusion hc)⟩

/-- Claim C7: the identifier sub-scanner consumes a maximal
alphanumeric-or-underscore run and classifies by exact full-lexeme
lookup in the keyword table.  First conjunct: on a keyword hit the
reserved-word kind is emitted with empty literal.  Second conjunct: on
a miss an Identifier token is emitted with literal equal to the matched
text.  Third conjunct: the source "classic" yields one Identifier token
with literal "classic" — not a Class token plus residue.  Fourth
conjunct: the source "class" alone does yield the Class keyword
token. -/
theorem claim_C7 :
    (∀ (st : Scanner) (a : Char) (w rest : List Char) (t : TokenType),
      st.source.drop st.start = (a :: w) ++ rest →
      st.current = st.start + 1 →
      (∀ c ∈ a :: w, is_alphanumeric c = true) →
      (∀ c, rest.head? = some c → is_alphanumeric c = false) →
      keywords (a :: w) = some t →
      st.read_identifier = some (.ok ⟨st.source,
        st.tokens ++ [⟨t, a :: w, [], st.line⟩],
        st.start, st.start + 1 + w.length, st.line⟩)) ∧
    (∀ (st : Scanner) (a : Char) (w rest : List Char),
      st.source.drop st.start = (a :: w) ++ rest →
      st.current = st.start + 1 →
      (∀ c ∈ a :: w, is_alphanumeric c = true) →
      (∀ c, rest.head? = some c → is_alphanumeric c = false) →
      keywords (a :: w) = none →
      st.read_identifier = some (.ok ⟨st.source,
        st.tokens ++ [⟨TokenType.Identifier, a :: w, a :: w, st.line⟩],
        st.start, st.start + 1 + w.length, st.line⟩)) ∧
    scanSource "classic".data = some (.ok [⟨TokenType.Identifier, "classic".data,
      "classic".data, 1⟩, ⟨TokenType.Eof, [], [], 1⟩]) ∧
    scanSource "class".data = some (.ok [⟨TokenType.Class, "class".data, [], 1⟩,
      ⟨TokenType.Eof, [], [], 1⟩]) := by
  refine ⟨?_, ?_, rfl, rfl⟩
  · intro st a w rest t h1 h2 h3 h4 hk
    obtain ⟨src, toks_, start, cur, line⟩ := st
    dsimp only at h1 h2 ⊢
    subst h2
    rw [read_identifier_reduced src toks_ start line a w rest h1 h3 h4, hk]
    dsimp only
    rw [if_neg (keywords_ne_id (a :: w) t hk)]
  · intro st a w rest h1 h2 h3 h4 hk
    obtain ⟨src, toks_, start, cur, line⟩ := st
    dsimp only at h1 h2 ⊢
    subst h2
    rw [read_identifier_reduced src toks_ start line a w rest h1 h3 h4, hk]
    dsimp only
    rw [if_pos rfl]

/-- Witness for C7 at concrete inputs: the exact keyword "class" is
classified as the Class reserved word with empty literal, while
"classic" is a plain Identifier carrying its own text as literal. -/
theorem claim_C7_witness :
    Scanner.read_identifier ⟨"class".data, [], 0, 1, 1⟩ =
      some (.ok ⟨"class".data, [⟨TokenType.Class, "class".data, [], 1⟩],
        0, 5, 1⟩) ∧
    Scanner.read_identifier ⟨"classic".data, [], 0, 1, 1⟩ =
      some (.ok ⟨"classic".data, [⟨TokenType.Identifier, "classic".data,
        "classic".data, 1⟩], 0, 7, 1⟩) :=
  ⟨claim_C7.1 ⟨"class".data, [], 0, 1, 1⟩ 'c' "lass".data [] TokenType.Class
      (by decide) rfl (by decide)
      (by
        intro c hc
        exact Option.noConfusion hc)
      (by decide),
   claim_C7.2.1 ⟨"classic".data, [], 0, 1, 1⟩ 'c' "lassic".data []
      (by decide) rfl (by decide)
      (by
        intro c hc
        exact Option.noConfusion hc)
      (by decide)⟩

end RLox
